import Mathlib

/-!
Verification of the core logic of `altcoin_trend_rank.py`.

The development shallowly embeds the data model and the pure content of the
script's operations:

* `compute_tick_values` — the sampling-interval estimator and lookback
  resolver (source lines 191-206);
* `buildWindow` / `buildSummary` / `summaryRun` — the per-asset summary
  builder, i.e. the population loop over the summary dataframe
  (source lines 488-544), with the per-window `try/except` blocks modelled
  as `Option`-valued fields and the uncaught failure modes modelled as
  `Except` errors;
* `create_cmc_coins_sorted_by_price_change_truncated` — the ranking and
  filtering engine (source lines 574-591);
* `renderRow` — the pure column computations of
  `print_cmc_coins_sorted_by_price_change` (source lines 595-630).

Machine floats of the source are modelled as exact rationals; Python's
`round` (round-half-to-even) is modelled by `rnd`; a pandas positional-label
lookup `series[k]`, which raises `KeyError` for labels outside `0..N-1`
(negative included), is modelled by `listGetI`.
-/

/-- Python 3 `round` on a number, i.e. round half to even, over `ℚ`. -/
def rnd (q : ℚ) : ℤ :=
  let f := ⌊q⌋
  let r := q - f
  if r < 1/2 then f
  else if 1/2 < r then f + 1
  else if f % 2 = 0 then f else f + 1

/-- Integer-label lookup into a list, as a pandas `Series` with the default
`RangeIndex` behaves under `series[k]`: defined for `0 ≤ k < length`,
a `KeyError` (here `none`) otherwise — negative labels do not wrap. -/
def listGetI {α : Type} (l : List α) (i : ℤ) : Option α :=
  if 0 ≤ i then l.get? i.toNat else none

/-- One asset's chart data: the `price_btc` and `price_usd` columns, each a
list of `[timestamp-in-milliseconds, price]` pairs (the JSON rows). The two
columns can have different lengths, as the source's docstring warns. -/
structure ChartData where
  priceBtc : List (Int × ℚ)
  priceUsd : List (Int × ℚ)
deriving DecidableEq

/-- The fields of one asset's row in the ranking snapshot that the summary
builder copies. `volumeUsd` is kept as the character string the v1 ticker
API returns, because the report renderer manipulates it as a string. -/
structure Snapshot where
  name : List Char
  symbol : String
  volumeUsd : List Char
  marketCapUsd : ℚ
deriving DecidableEq

/-- Failure of `compute_tick_values`: a missing positional label
(`KeyError`, series shorter than 2) or a zero division
(`ZeroDivisionError`, `N = 2` or coincident timestamps). -/
inductive TickErr where
  | indexError : TickErr
  | divByZero : TickErr
deriving DecidableEq

/-- The module-level globals set by `compute_tick_values`
(source lines 192-206). -/
structure TickValues where
  totalSampleCount : ℕ
  deltaTick : ℚ
  rangeTick : ℚ
  hourSampleCount : ℤ
  daySampleCount : ℤ
  day7SampleCount : ℤ
  dayApprox30SampleCount : ℤ
deriving DecidableEq

/-- Timestamp of sample `i` of the `price_btc` column, in seconds
(the source divides each millisecond timestamp by 1000). -/
def tsSec (cd : ChartData) (i : ℕ) : ℚ :=
  ((cd.priceBtc.getD i (0, 0)).1 : ℚ) / 1000

/-- `compute_tick_values` (source lines 191-206): the sample count is the
count of the `price_btc` column; the interval (`delta_tick`) averages the
spacing over all samples except the final one; the range (`range_tick`)
includes the final sample; the four lookback offsets are `round(duration /
delta_tick)` with the 30-day one additionally decremented by 5. A series
shorter than 2 raises `KeyError`; `N = 2` (or coincident timestamps)
raises `ZeroDivisionError`. -/
def compute_tick_values (cd : ChartData) : Except TickErr TickValues :=
  let n := cd.priceBtc.length
  if n ≤ 1 then .error .indexError
  else if n = 2 then .error .divByZero
  else
    let delta := (tsSec cd (n - 2) - tsSec cd 0) / ((n : ℚ) - 2)
    if delta = 0 then .error .divByZero
    else .ok ⟨n, delta, tsSec cd (n - 1) - tsSec cd 0,
              rnd (60 * 60 / delta),
              rnd (60 * 60 * 24 / delta),
              rnd (60 * 60 * 24 * 7 / delta),
              rnd (60 * 60 * 24 * 30 / delta) - 5⟩

/-- The four per-window derived fields of a summary row; `none` is the
explicit "unavailable" marker (`np.NaN` in the source). -/
structure WindowFields where
  agoPriceBtc : Option ℚ
  changeBtc : Option ℚ
  agoPriceUsd : Option ℚ
  changeUsd : Option ℚ
deriving DecidableEq

/-- All four fields of a window marked unavailable, as the `except` branch
of each per-window `try` block sets them (source lines 503-508 etc.). -/
def nanWindow : WindowFields := ⟨none, none, none, none⟩

/-- One per-window `try` block of the summary population loop (source lines
498-508 and its three siblings): look the historical sample up at label
`N - 2 - offset` in both price columns and divide current by historical;
any failure inside the block — missing label in either column, or a zero
historical price making the division raise — lands in the bare `except`,
which overwrites all four fields of this window with `NaN`. -/
def buildWindow (cd : ChartData) (n : ℕ) (curBtc curUsd : ℚ) (offset : ℤ) :
    WindowFields :=
  let idx : ℤ := (n : ℤ) - 2 - offset
  match listGetI cd.priceBtc idx, listGetI cd.priceUsd idx with
  | some hb, some hu =>
      if hb.2 = 0 ∨ hu.2 = 0 then nanWindow
      else ⟨some hb.2, some (curBtc / hb.2), some hu.2, some (curUsd / hu.2)⟩
  | some _, none => nanWindow
  | none, _ => nanWindow

/-- One asset's row of the summary dataframe after the population loop. -/
structure Summary where
  id : String
  name : List Char
  symbol : String
  price_btc : ℚ
  price_usd : ℚ
  volumeUsd : List Char
  marketCapUsd : ℚ
  hour : WindowFields
  day : WindowFields
  days7 : WindowFields
  days30 : WindowFields
deriving DecidableEq

/-- An error escaping one iteration of the summary population loop, where
no `try` protects it: `compute_tick_values` raising (line 490), or the
current-price lookup `price_usd[N-2]` raising (line 494). -/
inductive BuildErr where
  | tick : TickErr → BuildErr
  | currentPriceMissing : BuildErr
deriving DecidableEq

/-- One iteration of the summary population loop (source lines 488-544) for
one asset: compute the tick values, copy the snapshot fields and the
current prices from sample `N - 2` of each column, then fill the four
lookback windows independently. Only the failures outside the per-window
`try` blocks escape. -/
def buildSummary (id : String) (snap : Snapshot) (cd : ChartData) :
    Except BuildErr Summary :=
  match compute_tick_values cd with
  | .error e => .error (.tick e)
  | .ok tv =>
    let n := tv.totalSampleCount
    match listGetI cd.priceBtc ((n : ℤ) - 2), listGetI cd.priceUsd ((n : ℤ) - 2) with
    | some pb, some pu =>
        .ok ⟨id, snap.name, snap.symbol, pb.2, pu.2, snap.volumeUsd,
             snap.marketCapUsd,
             buildWindow cd n pb.2 pu.2 tv.hourSampleCount,
             buildWindow cd n pb.2 pu.2 tv.daySampleCount,
             buildWindow cd n pb.2 pu.2 tv.day7SampleCount,
             buildWindow cd n pb.2 pu.2 tv.dayApprox30SampleCount⟩
    | _, _ => .error .currentPriceMissing

/-- The whole summary population loop: the loop body runs unprotected, so
the first escaping error aborts the loop (and the run) with the remaining
assets unprocessed. -/
def summaryRun : List (String × Snapshot × ChartData) →
    Except BuildErr (List Summary)
  | [] => .ok []
  | c :: rest =>
    match buildSummary c.1 c.2.1 c.2.2 with
    | .error e => .error e
    | .ok s =>
      match summaryRun rest with
      | .error e => .error e
      | .ok l => .ok (s :: l)

/-- The chart-download loop (source lines 372-379): each fetch runs inside
`try/except`, so an asset whose fetch fails is dropped from
`cmc_chart_data` and the loop continues with the next asset. -/
def fetchStage (results : List (String × Option ChartData)) :
    List (String × ChartData) :=
  results.filterMap (fun r => (r.2).map (fun cd => (r.1, cd)))

/-- The four change metrics the ranking accepts
(`hour_change_btc`, `day_change_btc`, `days_7_change_btc`,
`days_approx30_change_btc`). -/
inductive Window where
  | hour : Window
  | day : Window
  | days7 : Window
  | days30 : Window
deriving DecidableEq

/-- The window fields of a summary row for a given window. -/
def wfields (s : Summary) : Window → WindowFields
  | .hour => s.hour
  | .day => s.day
  | .days7 => s.days7
  | .days30 => s.days30

/-- The lookback offset (in samples) computed for a given window. -/
def offsetOf (tv : TickValues) : Window → ℤ
  | .hour => tv.hourSampleCount
  | .day => tv.daySampleCount
  | .days7 => tv.day7SampleCount
  | .days30 => tv.dayApprox30SampleCount

/-- The chosen change metric of a summary row (the `change_variable`
column read by the ranking and the renderer). -/
def metricOf (s : Summary) (w : Window) : Option ℚ :=
  (wfields s w).changeBtc

/-- `.loc[id, ...]` on the indexed summary dataframe: the first row whose
identifier matches. -/
def summaryLookup (table : List Summary) (id : String) : Option Summary :=
  table.find? (fun s => s.id = id)

/-- The selection loop of the ranking function (source lines 578-583): take
the summary row ids, remove the first `'bitcoin'`, and keep `(id, metric)`
for each id whose symbol is in the filter list. No availability check is
made on the metric: a `NaN` metric is kept. -/
def rankPairs (table : List Summary) (w : Window) (filt : List String) :
    List (String × Option ℚ) :=
  ((table.map Summary.id).erase "bitcoin").filterMap (fun id =>
    match summaryLookup table id with
    | some s => if s.symbol ∈ filt then some (id, metricOf s w) else none
    | none => none)

/-- The strict "comes before" test of the descending sort: defined only
when both metrics are numbers; any comparison against `NaN` is false. -/
def gtK (a b : String × Option ℚ) : Bool :=
  match a.2, b.2 with
  | some x, some y => y < x
  | some _, none => false
  | none, _ => false

/-- Ordered insertion for the descending sort. -/
def insertDesc (x : String × Option ℚ) :
    List (String × Option ℚ) → List (String × Option ℚ)
  | [] => [x]
  | y :: ys => if gtK x y then x :: y :: ys else y :: insertDesc x ys

/-- The `sorted(..., reverse=True)` call of the ranking function, as an
insertion sort with `gtK`: on all-numeric metrics this is exactly the
descending sort; entries with a `NaN` metric are kept (never dropped),
their position being the sort implementation's business. -/
def sortDesc : List (String × Option ℚ) → List (String × Option ℚ)
  | [] => []
  | x :: xs => insertDesc x (sortDesc xs)

/-- `create_cmc_coins_sorted_by_price_change_truncated`
(source lines 574-591): select, sort descending by the chosen metric, and
truncate to `min(len, number_of_coins)` ids. -/
def create_cmc_coins_sorted_by_price_change_truncated
    (table : List Summary) (w : Window) (number_of_coins : ℕ)
    (filt : List String) : List String :=
  ((sortDesc (rankPairs table w filt)).map Prod.fst).take number_of_coins

/-- ASCII decimal-digit test, `'0' ≤ c ≤ '9'`. -/
def isDigitC (c : Char) : Bool :=
  48 ≤ c.toNat && c.toNat ≤ 57

/-- Python `int(...)` on a string of decimal digits. -/
def parseNat (s : List Char) : ℕ :=
  s.foldl (fun a c => a * 10 + (c.toNat - 48)) 0

/-- Python `str.find('.')`: index of the first dot, `none` for `-1`. -/
def findDot (s : List Char) : Option ℕ :=
  s.findIdx? (fun c => c = '.')

/-- The volume computation of the report renderer (source lines 606-610):
truncate the decimal string at the first dot, if any, and parse the prefix
as an integer. -/
def truncVolume (s : List Char) : ℕ :=
  match findDot s with
  | none => parseNat s
  | some i => parseNat (s.take i)

/-- The rational value denoted by the decimal string
`intPart ++ '.' :: fracPart`. -/
def volValue (intPart fracPart : List Char) : ℚ :=
  (parseNat intPart : ℚ) + (parseNat fracPart : ℚ) / 10 ^ fracPart.length

/-- One rendered report row (the pure column computations of
`print_cmc_coins_sorted_by_price_change`, source lines 599-630). -/
structure Row where
  symbol : String
  percent : Option ℚ
  volumeInt : ℕ
  nameTrunc : List Char
  priceBtc : ℚ
  priceUsd : ℚ
deriving DecidableEq

/-- Render one summary row for the report: the percent column is
`(ratio - 1) * 100` over the chosen metric (`NaN` stays `NaN`), the volume
string is truncated at its dot, the name is sliced to `name[0:14]`. -/
def renderRow (s : Summary) (w : Window) : Row :=
  ⟨s.symbol, (metricOf s w).map (fun r => (r - 1) * 100),
   truncVolume s.volumeUsd, s.name.take 14, s.price_btc, s.price_usd⟩

/-! ### Helper lemmas about `compute_tick_values` -/

/-- Inversion of a successful `compute_tick_values` call: the series has at
least 3 samples and every field of the result is pinned down. -/
theorem tick_ok_spec (cd : ChartData) (tv : TickValues)
    (h : compute_tick_values cd = Except.ok tv) :
    3 ≤ cd.priceBtc.length ∧
    tv.totalSampleCount = cd.priceBtc.length ∧
    tv.deltaTick = (tsSec cd (cd.priceBtc.length - 2) - tsSec cd 0) /
        ((cd.priceBtc.length : ℚ) - 2) ∧
    tv.deltaTick ≠ 0 ∧
    tv.rangeTick = tsSec cd (cd.priceBtc.length - 1) - tsSec cd 0 ∧
    tv.hourSampleCount = rnd (60 * 60 / tv.deltaTick) ∧
    tv.daySampleCount = rnd (60 * 60 * 24 / tv.deltaTick) ∧
    tv.day7SampleCount = rnd (60 * 60 * 24 * 7 / tv.deltaTick) ∧
    tv.dayApprox30SampleCount = rnd (60 * 60 * 24 * 30 / tv.deltaTick) - 5 := by
  simp only [compute_tick_values] at h
  split at h
  · exact absurd h (by simp)
  · split at h
    · exact absurd h (by simp)
    · split at h
      · exact absurd h (by simp)
      · injection h with h'
        subst h'
        refine ⟨by omega, rfl, rfl, by assumption, rfl, rfl, rfl, rfl, rfl⟩

/-! ### Concrete example data used by the witnesses -/

/-- A seven-sample chart column with uniform 900-second (15-minute)
spacing: timestamps in milliseconds, doubling prices. -/
def uEx : List (Int × ℚ) :=
  [(0, 1), (900000, 2), (1800000, 4), (2700000, 8), (3600000, 16),
   (4500000, 32), (5400000, 64)]

/-- A seven-sample chart with identical BTC and USD columns. -/
def cdEx : ChartData := ⟨uEx, uEx⟩

/-- The tick values of `cdEx`: interval 900 s, range 5400 s, offsets
4, 96, 672 and 2880 - 5. -/
def tvEx : TickValues := ⟨7, 900, 5400, 4, 96, 672, 2875⟩

/-- `compute_tick_values` on the example chart. -/
theorem tick_ok_cdEx : compute_tick_values cdEx = Except.ok tvEx := by
  norm_num [compute_tick_values, tsSec, rnd, cdEx, uEx, tvEx]

/-! ### C1 -/

/-- C1: for every time series with `N ≥ 3` samples (`compute_tick_values`
succeeding forces `N ≥ 3`), the estimated sampling interval equals
`(timestamp[N-2] - timestamp[0]) / (N-2)` — the average spacing over all
samples except the final one — and the reported total range equals
`timestamp[N-1] - timestamp[0]`, including the final sample. -/
theorem tick_interval_uses_all_but_last (cd : ChartData) (tv : TickValues)
    (h : compute_tick_values cd = Except.ok tv) :
    tv.deltaTick = (tsSec cd (cd.priceBtc.length - 2) - tsSec cd 0) /
        ((cd.priceBtc.length : ℚ) - 2)
  ∧ tv.rangeTick = tsSec cd (cd.priceBtc.length - 1) - tsSec cd 0 := by
  obtain ⟨-, -, h1, -, h2, -⟩ := tick_ok_spec cd tv h
  exact ⟨h1, h2⟩

/-- Witness for C1 at the concrete five-sample chart `cdEx`. -/
theorem tick_interval_uses_all_but_last_witness :
    tvEx.deltaTick = (tsSec cdEx (cdEx.priceBtc.length - 2) - tsSec cdEx 0) /
        ((cdEx.priceBtc.length : ℚ) - 2)
  ∧ tvEx.rangeTick = tsSec cdEx (cdEx.priceBtc.length - 1) - tsSec cdEx 0 :=
  tick_interval_uses_all_but_last cdEx tvEx tick_ok_cdEx

/-! ### C2 -/

/-- C2: for every estimated interval `I`, the four lookback offsets equal
`round(3600/I)`, `round(86400/I)`, `round(604800/I)` and
`round(2592000/I) - 5`; only the 30-day offset gets the fixed `-5`
correction. -/
theorem lookback_offsets_round_formula (cd : ChartData) (tv : TickValues)
    (h : compute_tick_values cd = Except.ok tv) :
    tv.hourSampleCount = rnd (3600 / tv.deltaTick) ∧
    tv.daySampleCount = rnd (86400 / tv.deltaTick) ∧
    tv.day7SampleCount = rnd (604800 / tv.deltaTick) ∧
    tv.dayApprox30SampleCount = rnd (2592000 / tv.deltaTick) - 5 := by
  obtain ⟨-, -, -, -, -, h1, h2, h3, h4⟩ := tick_ok_spec cd tv h
  refine ⟨?_, ?_, ?_, ?_⟩ <;> · first
    | (rw [h1]; norm_num)
    | (rw [h2]; norm_num)
    | (rw [h3]; norm_num)
    | (rw [h4]; norm_num)

/-- Witness for C2 at the concrete five-sample chart `cdEx`. -/
theorem lookback_offsets_round_formula_witness :
    tvEx.hourSampleCount = rnd (3600 / tvEx.deltaTick) ∧
    tvEx.daySampleCount = rnd (86400 / tvEx.deltaTick) ∧
    tvEx.day7SampleCount = rnd (604800 / tvEx.deltaTick) ∧
    tvEx.dayApprox30SampleCount = rnd (2592000 / tvEx.deltaTick) - 5 :=
  lookback_offsets_round_formula cdEx tvEx tick_ok_cdEx

/-! ### C7: dependence of the interval estimate on the series -/

/-- The estimated interval of a chart, `none` when `compute_tick_values`
raises. -/
def deltaOf (cd : ChartData) : Option ℚ :=
  match compute_tick_values cd with
  | .ok tv => some tv.deltaTick
  | .error _ => none

/-- Appending one more (newest) sample to both columns of a chart. -/
def appendSample (cd : ChartData) (pt : Int × ℚ) : ChartData :=
  ⟨cd.priceBtc ++ [pt], cd.priceUsd ++ [pt]⟩

/-- A three-sample chart whose final delta (40 s) differs from its
estimated interval (10 s). -/
def cdIrr : ChartData :=
  ⟨[(0, 1), (10000, 1), (50000, 1)], [(0, 1), (10000, 1), (50000, 1)]⟩

/-- `cdEx` with a different final sample (timestamp 9000 s instead of
5400 s). -/
def cdEx2 : ChartData :=
  ⟨[(0, 1), (900000, 2), (1800000, 4), (2700000, 8), (3600000, 16),
    (4500000, 32), (9000000, 70)],
   [(0, 1), (900000, 2), (1800000, 4), (2700000, 8), (3600000, 16),
    (4500000, 32), (9000000, 70)]⟩

theorem tsSec_append (cd : ChartData) (pt : Int × ℚ) (i : ℕ)
    (h : i < cd.priceBtc.length) : tsSec (appendSample cd pt) i = tsSec cd i := by
  unfold tsSec appendSample
  rw [List.getD_append _ _ _ _ h]

theorem deltaOf_short (cd : ChartData) (h : cd.priceBtc.length ≤ 1) :
    deltaOf cd = none := by
  unfold deltaOf compute_tick_values
  simp [h]

theorem deltaOf_two (cd : ChartData) (h : cd.priceBtc.length = 2) :
    deltaOf cd = none := by
  unfold deltaOf compute_tick_values
  simp [h]

theorem deltaOf_ge3 (cd : ChartData) (h : 3 ≤ cd.priceBtc.length) :
    deltaOf cd =
      if (tsSec cd (cd.priceBtc.length - 2) - tsSec cd 0) /
          ((cd.priceBtc.length : ℚ) - 2) = 0 then none
      else some ((tsSec cd (cd.priceBtc.length - 2) - tsSec cd 0) /
          ((cd.priceBtc.length : ℚ) - 2)) := by
  unfold deltaOf compute_tick_values
  have h1 : ¬ (cd.priceBtc.length ≤ 1) := by omega
  have h2 : ¬ (cd.priceBtc.length = 2) := by omega
  by_cases hz : (tsSec cd (cd.priceBtc.length - 2) - tsSec cd 0) /
      ((cd.priceBtc.length : ℚ) - 2) = 0
  · simp [h1, h2, hz]
  · simp [h1, h2, hz]

/-- Helper for the amended C7, first half: the interval estimate is a
function of the length and the first `N - 1` timestamps alone. -/
theorem interval_init_dependence (cd cd' : ChartData)
    (hlen : cd.priceBtc.length = cd'.priceBtc.length)
    (hts : ∀ i, i + 1 < cd.priceBtc.length →
      (cd.priceBtc.getD i (0, 0)).1 = (cd'.priceBtc.getD i (0, 0)).1) :
    deltaOf cd = deltaOf cd' := by
  have h0 : ∀ i, i + 1 < cd.priceBtc.length → tsSec cd' i = tsSec cd i := by
    intro i hi
    unfold tsSec
    rw [← hts i hi]
  by_cases h1 : cd.priceBtc.length ≤ 1
  · rw [deltaOf_short cd h1, deltaOf_short cd' (by omega)]
  · by_cases h2 : cd.priceBtc.length = 2
    · rw [deltaOf_two cd h2, deltaOf_two cd' (by omega)]
    · have h3 : 3 ≤ cd.priceBtc.length := by omega
      have e0 := h0 0 (by omega)
      have e2 := h0 (cd.priceBtc.length - 2) (by omega)
      rw [deltaOf_ge3 cd h3, deltaOf_ge3 cd' (by omega), ← hlen, e0, e2]

/-- Helper for the amended C7, second half: appending a further sample
keeps the estimate exactly when the final recorded delta of the original
series equals the original estimate. -/
theorem interval_append_cond (cd : ChartData) (pt : Int × ℚ) (d : ℚ)
    (hd : deltaOf cd = some d)
    (htail : tsSec cd (cd.priceBtc.length - 1) -
      tsSec cd (cd.priceBtc.length - 2) = d) :
    deltaOf (appendSample cd pt) = some d := by
  have h3 : 3 ≤ cd.priceBtc.length := by
    by_contra h
    have hcase : cd.priceBtc.length ≤ 1 ∨ cd.priceBtc.length = 2 := by omega
    rcases hcase with hc | hc
    · rw [deltaOf_short cd hc] at hd; exact Option.noConfusion hd
    · rw [deltaOf_two cd hc] at hd; exact Option.noConfusion hd
  rw [deltaOf_ge3 cd h3] at hd
  by_cases hz : (tsSec cd (cd.priceBtc.length - 2) - tsSec cd 0) /
      ((cd.priceBtc.length : ℚ) - 2) = 0
  · rw [if_pos hz] at hd; exact Option.noConfusion hd
  · rw [if_neg hz] at hd
    injection hd with hd
    have hlen' : (appendSample cd pt).priceBtc.length = cd.priceBtc.length + 1 := by
      simp [appendSample]
    have hm2 : (2 : ℚ) ≤ (cd.priceBtc.length : ℚ) - 1 := by
      have : (3 : ℚ) ≤ (cd.priceBtc.length : ℚ) := by exact_mod_cast h3
      linarith
    have hne1 : ((cd.priceBtc.length : ℚ) - 1) ≠ 0 := by linarith
    have hne2 : ((cd.priceBtc.length : ℚ) - 2) ≠ 0 := by
      have : (3 : ℚ) ≤ (cd.priceBtc.length : ℚ) := by exact_mod_cast h3
      intro hcon; rw [sub_eq_zero] at hcon; rw [hcon] at this; norm_num at this
    have hnum : tsSec cd (cd.priceBtc.length - 2) - tsSec cd 0 =
        d * ((cd.priceBtc.length : ℚ) - 2) := by
      field_simp at hd
      linarith [hd]
    rw [deltaOf_ge3 _ (by omega)]
    have hi1 : (appendSample cd pt).priceBtc.length - 2 = cd.priceBtc.length - 1 := by
      rw [hlen']; omega
    have hi0 : (0 : ℕ) < cd.priceBtc.length := by omega
    have e2 : tsSec (appendSample cd pt) ((appendSample cd pt).priceBtc.length - 2) =
        tsSec cd (cd.priceBtc.length - 1) := by
      rw [hi1, tsSec_append cd pt _ (by omega)]
    have e0 : tsSec (appendSample cd pt) 0 = tsSec cd 0 :=
      tsSec_append cd pt 0 hi0
    have ecast : ((appendSample cd pt).priceBtc.length : ℚ) - 2 =
        (cd.priceBtc.length : ℚ) - 1 := by
      rw [hlen']
      push_cast
      ring
    have hδ' : (tsSec (appendSample cd pt) ((appendSample cd pt).priceBtc.length - 2) -
        tsSec (appendSample cd pt) 0) /
        (((appendSample cd pt).priceBtc.length : ℚ) - 2) = d := by
      rw [e2, e0, ecast]
      have hC : tsSec cd (cd.priceBtc.length - 1) - tsSec cd 0 =
          d * ((cd.priceBtc.length : ℚ) - 1) := by
        nlinarith [hnum, htail]
      rw [hC]
      field_simp
    rw [hδ']
    have hdne : d ≠ 0 := by
      intro hcon
      apply hz
      rw [hnum, hcon, zero_mul, zero_div]
    rw [if_neg hdne]

/-- C7 counterexample: a three-sample chart with estimated interval 10 s;
appending an anomalous newest sample (950 s after the previous one)
changes the estimate to 25 s, because the previously excluded final
sample now enters the average. The claim's invariance fails. -/
theorem interval_append_changes_estimate_cex :
    deltaOf cdIrr = some 10 ∧
    deltaOf (appendSample cdIrr (1000000, 1)) = some 25 ∧
    deltaOf (appendSample cdIrr (1000000, 1)) ≠ deltaOf cdIrr := by
  refine ⟨?_, ?_, ?_⟩ <;>
    norm_num [deltaOf, compute_tick_values, tsSec, cdIrr, appendSample]

/-- C7 amended: the estimated interval depends only on the series length
and the first `N - 1` timestamps; appending a further (arbitrary, hence
possibly anomalous) final sample preserves the estimate exactly when the
original series' final recorded delta equals the original estimate — in
particular for uniformly spaced series — but not in general. -/
theorem interval_init_only_and_conditional_append :
    (∀ cd cd' : ChartData, cd.priceBtc.length = cd'.priceBtc.length →
      (∀ i, i + 1 < cd.priceBtc.length →
        (cd.priceBtc.getD i (0, 0)).1 = (cd'.priceBtc.getD i (0, 0)).1) →
      deltaOf cd = deltaOf cd') ∧
    (∀ (cd : ChartData) (pt : Int × ℚ) (d : ℚ), deltaOf cd = some d →
      tsSec cd (cd.priceBtc.length - 1) - tsSec cd (cd.priceBtc.length - 2) = d →
      deltaOf (appendSample cd pt) = some d) :=
  ⟨interval_init_dependence, interval_append_cond⟩

/-- Witness for the amended C7: the uniform five-sample chart `cdEx`
(interval 900 s, final delta 900 s) keeps estimate 900 s when an anomalous
sample is appended, and changing only the final timestamp (`cdEx2`) leaves
the estimate unchanged. -/
theorem interval_init_only_and_conditional_append_witness :
    deltaOf (appendSample cdEx (999999999, 5)) = some 900 ∧
    deltaOf cdEx = deltaOf cdEx2 :=
  ⟨interval_init_only_and_conditional_append.2 cdEx (999999999, 5) 900
      (by norm_num [deltaOf, compute_tick_values, tsSec, cdEx, uEx])
      (by norm_num [tsSec, cdEx, uEx]),
   interval_init_only_and_conditional_append.1 cdEx cdEx2
      (by decide)
      (by
        intro i hi
        have hi4 : i < 6 := by
          have := hi
          simp [cdEx, uEx] at this
          omega
        interval_cases i <;> decide)⟩

/-! ### C5: series with fewer than 3 samples -/

/-- A minimal snapshot used by the concrete examples. -/
def snapEx : Snapshot := ⟨['A'], "AAA", ['1'], 1⟩

/-- A fetched two-sample chart: long enough to be fetched, too short for
interval estimation. -/
def cdShort : ChartData := ⟨[(0, 1), (900000, 1)], [(0, 1), (900000, 1)]⟩

/-- C5 counterexample: with a fetched two-sample series first in the loop,
the whole summary run returns the uncaught `ZeroDivisionError` — the asset
is not skipped, no summary table is produced, and the remaining asset
(`cdEx`, perfectly processable) is never processed. The claim's
skip-and-continue behaviour does not hold. -/
theorem short_series_aborts_run_cex :
    summaryRun [("alpha", snapEx, cdShort), ("beta", snapEx, cdEx)] =
      Except.error (BuildErr.tick TickErr.divByZero) := rfl

/-- C5 amended: an asset whose chart fetch fails is skipped by the fetch
loop and later assets still go through; but a successfully fetched series
with fewer than 3 samples makes interval estimation raise an uncaught
error — `ZeroDivisionError` at `N = 2`, `KeyError` at `N ≤ 1`, there being
no dedicated `InsufficientDataError` — which aborts the entire summary
population loop, leaving every remaining asset unprocessed. -/
theorem short_series_error_propagates :
    (∀ (idn : String) (rest : List (String × Option ChartData)),
      fetchStage ((idn, (none : Option ChartData)) :: rest) = fetchStage rest) ∧
    (∀ (idn : String) (snap : Snapshot) (cd : ChartData)
      (rest : List (String × Snapshot × ChartData)),
      cd.priceBtc.length = 2 →
      summaryRun ((idn, snap, cd) :: rest) =
        Except.error (BuildErr.tick TickErr.divByZero)) ∧
    (∀ (idn : String) (snap : Snapshot) (cd : ChartData)
      (rest : List (String × Snapshot × ChartData)),
      cd.priceBtc.length ≤ 1 →
      summaryRun ((idn, snap, cd) :: rest) =
        Except.error (BuildErr.tick TickErr.indexError)) := by
  refine ⟨?_, ?_, ?_⟩
  · intro idn rest
    simp [fetchStage]
  · intro idn snap cd rest h
    have hb : buildSummary idn snap cd =
        Except.error (BuildErr.tick TickErr.divByZero) := by
      unfold buildSummary compute_tick_values
      simp [h]
    simp [summaryRun, hb]
  · intro idn snap cd rest h
    have hb : buildSummary idn snap cd =
        Except.error (BuildErr.tick TickErr.indexError) := by
      unfold buildSummary compute_tick_values
      simp [h]
    simp [summaryRun, hb]

/-- Witness for the amended C5 at concrete inputs: a failed fetch is
dropped without disturbing the rest, and a fetched two-sample series
aborts the run with the zero-division error. -/
theorem short_series_error_propagates_witness :
    fetchStage [("alpha", (none : Option ChartData))] = fetchStage [] ∧
    summaryRun [("alpha", snapEx, cdShort)] =
      Except.error (BuildErr.tick TickErr.divByZero) :=
  ⟨short_series_error_propagates.1 "alpha" [],
   short_series_error_propagates.2.1 "alpha" snapEx cdShort [] (by decide)⟩

/-! ### C3 and C6: the summary builder -/

theorem buildWindow_fail (cd : ChartData) (n : ℕ) (curB curU : ℚ) (off : ℤ)
    (h : listGetI cd.priceBtc ((n : ℤ) - 2 - off) = none ∨
         listGetI cd.priceUsd ((n : ℤ) - 2 - off) = none) :
    buildWindow cd n curB curU off = nanWindow := by
  unfold buildWindow
  rcases h with h | h
  · simp [h]
  · cases hb : listGetI cd.priceBtc ((n : ℤ) - 2 - off) <;> simp [hb, h]

theorem buildWindow_ok (cd : ChartData) (n : ℕ) (curB curU : ℚ) (off : ℤ)
    (hb hu : Int × ℚ)
    (hB : listGetI cd.priceBtc ((n : ℤ) - 2 - off) = some hb)
    (hU : listGetI cd.priceUsd ((n : ℤ) - 2 - off) = some hu)
    (hz : ¬ (hb.2 = 0 ∨ hu.2 = 0)) :
    buildWindow cd n curB curU off =
      ⟨some hb.2, some (curB / hb.2), some hu.2, some (curU / hu.2)⟩ := by
  unfold buildWindow
  simp [hB, hU, hz]

theorem buildSummary_ok (id : String) (snap : Snapshot) (cd : ChartData)
    (tv : TickValues) (pb pu : Int × ℚ)
    (h1 : compute_tick_values cd = Except.ok tv)
    (h2 : listGetI cd.priceBtc ((tv.totalSampleCount : ℤ) - 2) = some pb)
    (h3 : listGetI cd.priceUsd ((tv.totalSampleCount : ℤ) - 2) = some pu) :
    buildSummary id snap cd = Except.ok
      ⟨id, snap.name, snap.symbol, pb.2, pu.2, snap.volumeUsd, snap.marketCapUsd,
       buildWindow cd tv.totalSampleCount pb.2 pu.2 tv.hourSampleCount,
       buildWindow cd tv.totalSampleCount pb.2 pu.2 tv.daySampleCount,
       buildWindow cd tv.totalSampleCount pb.2 pu.2 tv.day7SampleCount,
       buildWindow cd tv.totalSampleCount pb.2 pu.2 tv.dayApprox30SampleCount⟩ := by
  unfold buildSummary
  rw [h1]
  simp [h2, h3]

/-- C3: for an asset whose tick values and current prices resolve, the
summary builder always succeeds (`Except.ok`, never an escaping error, so
the asset is never dropped), and the four windows are independent: any
window whose historical lookup at label `N - 2 - offset` fails in either
column gets all four of its derived fields set to the unavailable marker,
while every window whose lookup succeeds (with nonzero historical prices)
still gets its four fields populated. -/
theorem window_failures_are_field_scoped (id : String) (snap : Snapshot)
    (cd : ChartData) (tv : TickValues) (pb pu : Int × ℚ)
    (h1 : compute_tick_values cd = Except.ok tv)
    (h2 : listGetI cd.priceBtc ((tv.totalSampleCount : ℤ) - 2) = some pb)
    (h3 : listGetI cd.priceUsd ((tv.totalSampleCount : ℤ) - 2) = some pu) :
    ∃ s, buildSummary id snap cd = Except.ok s ∧
      (∀ w : Window,
        (listGetI cd.priceBtc ((tv.totalSampleCount : ℤ) - 2 - offsetOf tv w) = none ∨
         listGetI cd.priceUsd ((tv.totalSampleCount : ℤ) - 2 - offsetOf tv w) = none) →
        wfields s w = nanWindow) ∧
      (∀ (w : Window) (hb hu : Int × ℚ),
        listGetI cd.priceBtc ((tv.totalSampleCount : ℤ) - 2 - offsetOf tv w) = some hb →
        listGetI cd.priceUsd ((tv.totalSampleCount : ℤ) - 2 - offsetOf tv w) = some hu →
        ¬ (hb.2 = 0 ∨ hu.2 = 0) →
        wfields s w = ⟨some hb.2, some (pb.2 / hb.2), some hu.2, some (pu.2 / hu.2)⟩) := by
  refine ⟨_, buildSummary_ok id snap cd tv pb pu h1 h2 h3, ?_, ?_⟩
  · intro w hw
    cases w <;> exact buildWindow_fail _ _ _ _ _ hw
  · intro w hb hu hB hU hz
    cases w <;> exact buildWindow_ok _ _ _ _ _ _ _ hB hU hz

/-- Witness for C3 at the seven-sample chart `cdEx`, where the hour window
resolves (offset 4) and the longer windows all fail (offsets 96, 672,
2875 reach below index 0). -/
theorem window_failures_are_field_scoped_witness :
    ∃ s, buildSummary "beta" snapEx cdEx = Except.ok s ∧
      (∀ w : Window,
        (listGetI cdEx.priceBtc ((tvEx.totalSampleCount : ℤ) - 2 - offsetOf tvEx w) = none ∨
         listGetI cdEx.priceUsd ((tvEx.totalSampleCount : ℤ) - 2 - offsetOf tvEx w) = none) →
        wfields s w = nanWindow) ∧
      (∀ (w : Window) (hb hu : Int × ℚ),
        listGetI cdEx.priceBtc ((tvEx.totalSampleCount : ℤ) - 2 - offsetOf tvEx w) = some hb →
        listGetI cdEx.priceUsd ((tvEx.totalSampleCount : ℤ) - 2 - offsetOf tvEx w) = some hu →
        ¬ (hb.2 = 0 ∨ hu.2 = 0) →
        wfields s w = ⟨some hb.2, some (((4500000 : ℤ), (32 : ℚ)).2 / hb.2),
                       some hu.2, some (((4500000 : ℤ), (32 : ℚ)).2 / hu.2)⟩) :=
  window_failures_are_field_scoped "beta" snapEx cdEx tvEx
    ((4500000 : ℤ), (32 : ℚ)) ((4500000 : ℤ), (32 : ℚ))
    tick_ok_cdEx (by decide) (by decide)

/-- The summary row of `cdEx`: current prices from sample `N - 2 = 5`
(value 32), hour window resolved (historical price 2, ratio 16), longer
windows unavailable. -/
def sEx : Summary :=
  ⟨"beta", ['A'], "AAA", 32, 32, ['1'], 1,
   ⟨some 2, some 16, some 2, some 16⟩, nanWindow, nanWindow, nanWindow⟩

theorem buildSummary_cdEx : buildSummary "beta" snapEx cdEx = Except.ok sEx := by
  norm_num [buildSummary, compute_tick_values, tsSec, rnd, buildWindow, listGetI,
    cdEx, uEx, sEx, snapEx, nanWindow, List.getElem_cons_succ,
    List.getElem_cons_zero, show Int.toNat 5 = 5 from rfl]

/-- C6: the current price of a summary row, in both quote units, is copied
from the time-series sample at label `N - 2` (the hypotheses `h2`, `h3`
name that sample; the last sample sits at `N - 1` and is never read), and
every resolvable window stores change ratios exactly `current/historical`
in both units. -/
theorem current_price_and_ratio_exact (id : String) (snap : Snapshot)
    (cd : ChartData) (tv : TickValues) (pb pu : Int × ℚ) (s : Summary)
    (h1 : compute_tick_values cd = Except.ok tv)
    (h2 : listGetI cd.priceBtc ((tv.totalSampleCount : ℤ) - 2) = some pb)
    (h3 : listGetI cd.priceUsd ((tv.totalSampleCount : ℤ) - 2) = some pu)
    (hs : buildSummary id snap cd = Except.ok s) :
    s.price_btc = pb.2 ∧ s.price_usd = pu.2 ∧
    ∀ (w : Window) (hb hu : Int × ℚ),
      listGetI cd.priceBtc ((tv.totalSampleCount : ℤ) - 2 - offsetOf tv w) = some hb →
      listGetI cd.priceUsd ((tv.totalSampleCount : ℤ) - 2 - offsetOf tv w) = some hu →
      hb.2 ≠ 0 → hu.2 ≠ 0 →
      (wfields s w).agoPriceBtc = some hb.2 ∧
      (wfields s w).changeBtc = some (s.price_btc / hb.2) ∧
      (wfields s w).agoPriceUsd = some hu.2 ∧
      (wfields s w).changeUsd = some (s.price_usd / hu.2) := by
  have hlit := buildSummary_ok id snap cd tv pb pu h1 h2 h3
  rw [hs] at hlit
  injection hlit with hlit
  subst hlit
  refine ⟨rfl, rfl, ?_⟩
  intro w hb hu hB hU hz1 hz2
  have hbw := buildWindow_ok cd tv.totalSampleCount pb.2 pu.2 (offsetOf tv w)
    hb hu hB hU (by tauto)
  cases w <;> (simp only [offsetOf] at hbw; simp [wfields, hbw])

/-- Witness for C6 at the seven-sample chart `cdEx` and its summary row
`sEx`. -/
theorem current_price_and_ratio_exact_witness :
    sEx.price_btc = ((4500000 : ℤ), (32 : ℚ)).2 ∧
    sEx.price_usd = ((4500000 : ℤ), (32 : ℚ)).2 ∧
    ∀ (w : Window) (hb hu : Int × ℚ),
      listGetI cdEx.priceBtc ((tvEx.totalSampleCount : ℤ) - 2 - offsetOf tvEx w) = some hb →
      listGetI cdEx.priceUsd ((tvEx.totalSampleCount : ℤ) - 2 - offsetOf tvEx w) = some hu →
      hb.2 ≠ 0 → hu.2 ≠ 0 →
      (wfields sEx w).agoPriceBtc = some hb.2 ∧
      (wfields sEx w).changeBtc = some (sEx.price_btc / hb.2) ∧
      (wfields sEx w).agoPriceUsd = some hu.2 ∧
      (wfields sEx w).changeUsd = some (sEx.price_usd / hu.2) :=
  current_price_and_ratio_exact "beta" snapEx cdEx tvEx
    ((4500000 : ℤ), (32 : ℚ)) ((4500000 : ℤ), (32 : ℚ)) sEx
    tick_ok_cdEx (by decide) (by decide) buildSummary_cdEx

/-! ### C4, C8, C10: the ranking and filtering engine -/

/-- Descending-order relation on rank pairs, read only at numeric keys. -/
def rankGe (a b : String × Option ℚ) : Prop :=
  ∀ x y, a.2 = some x → b.2 = some y → y ≤ x

theorem insertDesc_perm (x : String × Option ℚ) (l : List (String × Option ℚ)) :
    (insertDesc x l).Perm (x :: l) := by
  induction l with
  | nil => exact List.Perm.refl _
  | cons y ys ih =>
    unfold insertDesc
    by_cases h : gtK x y
    · simp [h]
    · simp only [if_neg h]
      exact (ih.cons y).trans (List.Perm.swap x y ys)

theorem sortDesc_perm (l : List (String × Option ℚ)) : (sortDesc l).Perm l := by
  induction l with
  | nil => exact List.Perm.refl _
  | cons x xs ih =>
    unfold sortDesc
    exact (insertDesc_perm x (sortDesc xs)).trans (ih.cons x)

theorem insertDesc_pairwise (x : String × Option ℚ)
    (l : List (String × Option ℚ))
    (hx : (x.2).isSome = true) (hl : ∀ y ∈ l, (y.2).isSome = true)
    (h : List.Pairwise rankGe l) : List.Pairwise rankGe (insertDesc x l) := by
  obtain ⟨xv, hxv⟩ := Option.isSome_iff_exists.mp hx
  induction l with
  | nil => simp [insertDesc]
  | cons y ys ih =>
    obtain ⟨yv, hyv⟩ := Option.isSome_iff_exists.mp (hl y (by simp))
    rcases h with - | ⟨hy, hys⟩
    unfold insertDesc
    by_cases hgt : gtK x y
    · rw [if_pos hgt]
      have hlt : yv < xv := by
        simpa [gtK, hxv, hyv] using hgt
      constructor
      · intro z hz
        rcases List.mem_cons.mp hz with rfl | hzys
        · intro p q hp hq
          rw [hxv] at hp; rw [hyv] at hq
          cases hp; cases hq
          exact le_of_lt hlt
        · obtain ⟨zv, hzv⟩ := Option.isSome_iff_exists.mp (hl z (by simp [hzys]))
          have hzy : zv ≤ yv := hy z hzys yv zv hyv hzv
          intro p q hp hq
          rw [hxv] at hp; rw [hzv] at hq
          cases hp; cases hq
          exact le_of_lt (lt_of_le_of_lt hzy hlt)
      · exact List.Pairwise.cons hy hys
    · rw [if_neg hgt]
      have hxy : xv ≤ yv := by
        have hnlt : ¬ yv < xv := by
          intro hlt
          exact hgt (by simp [gtK, hxv, hyv, hlt])
        exact le_of_not_lt hnlt
      constructor
      · intro z hz
        rcases List.mem_cons.mp ((insertDesc_perm x ys).mem_iff.mp hz) with rfl | hzys
        · intro p q hp hq
          rw [hyv] at hp; rw [hxv] at hq
          cases hp; cases hq
          exact hxy
        · exact hy z hzys
      · exact ih (fun z hz => hl z (by simp [hz])) hys

theorem sortDesc_pairwise (l : List (String × Option ℚ))
    (hl : ∀ y ∈ l, (y.2).isSome = true) :
    List.Pairwise rankGe (sortDesc l) := by
  induction l with
  | nil => exact List.Pairwise.nil
  | cons x xs ih =>
    unfold sortDesc
    exact insertDesc_pairwise x (sortDesc xs) (hl x (by simp))
      (fun y hy => hl y (by simp [(sortDesc_perm xs).mem_iff.mp hy]))
      (ih (fun y hy => hl y (by simp [hy])))

theorem summaryLookup_self (table : List Summary) (s : Summary)
    (hnd : (table.map Summary.id).Nodup) (hs : s ∈ table) :
    summaryLookup table s.id = some s := by
  induction table with
  | nil => cases hs
  | cons t ts ih =>
    rw [List.map_cons] at hnd
    obtain ⟨hni, hnd'⟩ := List.nodup_cons.mp hnd
    rcases List.mem_cons.mp hs with rfl | hmem
    · exact List.find?_cons_of_pos _ (by simp)
    · have hne : t.id ≠ s.id := by
        intro he
        apply hni
        rw [he]
        exact List.mem_map_of_mem Summary.id hmem
      unfold summaryLookup
      rw [List.find?_cons_of_neg _ (by simp [hne])]
      exact ih hnd' hmem

theorem rankPairs_mem_intro (table : List Summary) (w : Window)
    (filt : List String) (s : Summary)
    (hnd : (table.map Summary.id).Nodup) (hs : s ∈ table)
    (hbit : s.id ≠ "bitcoin") (hf : s.symbol ∈ filt) :
    (s.id, metricOf s w) ∈ rankPairs table w filt := by
  unfold rankPairs
  refine List.mem_filterMap.mpr ⟨s.id, ?_, ?_⟩
  · exact (List.mem_erase_of_ne hbit).mpr (List.mem_map_of_mem Summary.id hs)
  · rw [summaryLookup_self table s hnd hs]
    simp [hf]

theorem rankPairs_mem_elim (table : List Summary) (w : Window)
    (filt : List String) (p : String × Option ℚ)
    (hp : p ∈ rankPairs table w filt) :
    p.1 ∈ (table.map Summary.id).erase "bitcoin" ∧
    ∃ s, s ∈ table ∧ s.id = p.1 ∧ s.symbol ∈ filt ∧ p.2 = metricOf s w := by
  unfold rankPairs at hp
  obtain ⟨a, ha, hfa⟩ := List.mem_filterMap.mp hp
  cases hsl : summaryLookup table a with
  | none => rw [hsl] at hfa; exact absurd hfa (by simp)
  | some s =>
    rw [hsl] at hfa
    simp only at hfa
    split_ifs at hfa with hf
    injection hfa with hfa
    subst hfa
    refine ⟨ha, s, List.mem_of_find?_eq_some hsl, ?_, hf, rfl⟩
    have := List.find?_some hsl
    simpa using this

theorem filterMap_fst_sublist (g : String → Option (String × Option ℚ))
    (hg : ∀ a p, g a = some p → p.1 = a) (l : List String) :
    ((l.filterMap g).map Prod.fst).Sublist l := by
  induction l with
  | nil => simp
  | cons a as ih =>
    cases hga : g a with
    | none =>
      have h1 : (a :: as).filterMap g = as.filterMap g := by
        simp [List.filterMap_cons, hga]
      rw [h1]
      exact ih.cons a
    | some p =>
      have h1 : (a :: as).filterMap g = p :: as.filterMap g := by
        simp [List.filterMap_cons, hga]
      rw [h1, List.map_cons, hg a p hga]
      exact ih.cons₂ a

theorem rankPairs_fst_sublist (table : List Summary) (w : Window)
    (filt : List String) :
    ((rankPairs table w filt).map Prod.fst).Sublist
      ((table.map Summary.id).erase "bitcoin") := by
  unfold rankPairs
  apply filterMap_fst_sublist
  intro a p h
  cases hsl : summaryLookup table a with
  | none => rw [hsl] at h; exact absurd h (by simp)
  | some s =>
    rw [hsl] at h
    simp only at h
    split_ifs at h
    injection h with h
    rw [← h]

/-- A summary row for the reference asset bitcoin. -/
def sBtcEx : Summary :=
  ⟨"bitcoin", ['B'], "BTC", 1, 1, ['1'], 1,
   nanWindow, nanWindow, nanWindow, nanWindow⟩

/-- A summary row whose hour metric is unavailable. -/
def sNanEx : Summary :=
  ⟨"alpha", ['A'], "AAA", 1, 1, ['1'], 1,
   nanWindow, nanWindow, nanWindow, nanWindow⟩

/-- A summary row with hour metric 2. -/
def sLowEx : Summary :=
  ⟨"gamma", ['G'], "GGG", 1, 1, ['1'], 1,
   ⟨some 1, some 2, some 1, some 2⟩, nanWindow, nanWindow, nanWindow⟩

/-- A summary row with hour metric 3. -/
def sHighEx : Summary :=
  ⟨"delta", ['D'], "DDD", 1, 1, ['1'], 1,
   ⟨some 1, some 3, some 1, some 3⟩, nanWindow, nanWindow, nanWindow⟩

/-- C4 counterexample: the ranking loop applies no availability check, so
the asset `alpha`, whose hour metric is the unavailable marker, appears in
the hour ranking. The claim's "never appears" clause fails. -/
theorem unavailable_metric_coin_ranked_cex :
    metricOf sNanEx Window.hour = none ∧
    create_cmc_coins_sorted_by_price_change_truncated [sBtcEx, sNanEx]
      Window.hour 30 ["AAA"] = ["alpha"] := by decide

/-- C4 amended: the ranking selects exactly the summaries whose symbol is
in the filter set (bitcoin removed), with no availability condition — an
asset whose chosen metric is unavailable is kept in the ranking (though
never converted to a 0% change); the output length is
`min(cap, number of matching assets)`; and whenever every selected metric
is available the order is descending by metric value. -/
theorem ranking_filter_sort_truncate (table : List Summary) (w : Window)
    (cap : ℕ) (filt : List String)
    (hnd : (table.map Summary.id).Nodup) :
    (create_cmc_coins_sorted_by_price_change_truncated table w cap filt).length =
      min cap (rankPairs table w filt).length ∧
    (∀ idn ∈ create_cmc_coins_sorted_by_price_change_truncated table w cap filt,
      ∃ s, s ∈ table ∧ s.id = idn ∧ s.symbol ∈ filt ∧ s.id ≠ "bitcoin") ∧
    ((rankPairs table w filt).length ≤ cap →
      ∀ s ∈ table, s.id ≠ "bitcoin" → s.symbol ∈ filt →
        s.id ∈ create_cmc_coins_sorted_by_price_change_truncated table w cap filt) ∧
    ((∀ p ∈ rankPairs table w filt, (p.2).isSome = true) →
      List.Pairwise rankGe (sortDesc (rankPairs table w filt))) := by
  refine ⟨?_, ?_, ?_, ?_⟩
  · unfold create_cmc_coins_sorted_by_price_change_truncated
    rw [List.length_take, List.length_map, (sortDesc_perm _).length_eq]
  · intro idn hmem
    have h1 : idn ∈ (sortDesc (rankPairs table w filt)).map Prod.fst :=
      (List.take_sublist _ _).subset hmem
    obtain ⟨p, hp, hp1⟩ := List.mem_map.mp h1
    have hp' : p ∈ rankPairs table w filt := (sortDesc_perm _).mem_iff.mp hp
    obtain ⟨hmem', s, hs, hsid, hsf, -⟩ := rankPairs_mem_elim table w filt p hp'
    refine ⟨s, hs, by rw [hsid, hp1], hsf, ?_⟩
    rw [hsid, hp1]
    rw [hp1] at hmem'
    exact (hnd.mem_erase_iff.mp hmem').1
  · intro hcap s hs hbit hf
    have hpair := rankPairs_mem_intro table w filt s hnd hs hbit hf
    have h1 : s.id ∈ (sortDesc (rankPairs table w filt)).map Prod.fst := by
      refine List.mem_map.mpr ⟨(s.id, metricOf s w), ?_, rfl⟩
      exact (sortDesc_perm _).mem_iff.mpr hpair
    unfold create_cmc_coins_sorted_by_price_change_truncated
    rw [List.take_of_length_le]
    · exact h1
    · rw [List.length_map, (sortDesc_perm _).length_eq]
      exact hcap
  · intro hall
    exact sortDesc_pairwise _ hall

/-- Witness for the amended C4 at a concrete three-row table. -/
theorem ranking_filter_sort_truncate_witness :
    (create_cmc_coins_sorted_by_price_change_truncated [sBtcEx, sLowEx, sHighEx]
      Window.hour 30 ["GGG", "DDD"]).length =
      min 30 (rankPairs [sBtcEx, sLowEx, sHighEx] Window.hour ["GGG", "DDD"]).length :=
  (ranking_filter_sort_truncate [sBtcEx, sLowEx, sHighEx] Window.hour 30
    ["GGG", "DDD"] (by decide)).1

/-- C8: the reference asset bitcoin is excluded from every ranking, for
every change metric, membership filter and cap. -/
theorem bitcoin_excluded_from_ranking (table : List Summary) (w : Window)
    (cap : ℕ) (filt : List String)
    (hnd : (table.map Summary.id).Nodup) :
    "bitcoin" ∉ create_cmc_coins_sorted_by_price_change_truncated table w cap filt := by
  intro hmem
  unfold create_cmc_coins_sorted_by_price_change_truncated at hmem
  have h1 : "bitcoin" ∈ (sortDesc (rankPairs table w filt)).map Prod.fst :=
    (List.take_sublist _ _).subset hmem
  obtain ⟨p, hp, hp1⟩ := List.mem_map.mp h1
  have hp' : p ∈ rankPairs table w filt := (sortDesc_perm _).mem_iff.mp hp
  have hmem' := (rankPairs_mem_elim table w filt p hp').1
  rw [hp1] at hmem'
  exact absurd ((hnd.mem_erase_iff.mp hmem').1) (by simp)

/-- Witness for C8: bitcoin stays out of a concrete ranking even when its
own symbol is in the membership filter. -/
theorem bitcoin_excluded_from_ranking_witness :
    "bitcoin" ∉ create_cmc_coins_sorted_by_price_change_truncated
      [sBtcEx, sLowEx, sHighEx] Window.hour 30 ["BTC", "GGG", "DDD"] :=
  bitcoin_excluded_from_ranking [sBtcEx, sLowEx, sHighEx] Window.hour 30
    ["BTC", "GGG", "DDD"] (by decide)

/-- C10: every ranking is a list of pairwise-distinct identifiers, each
present in the summary table. (The ranking function of the embedding is a
pure function of the table, mirroring the source function, whose body only
reads `cmc_summary_data_df_indexed` via `.loc` and never assigns to it.) -/
theorem ranking_ids_distinct_and_present (table : List Summary) (w : Window)
    (cap : ℕ) (filt : List String)
    (hnd : (table.map Summary.id).Nodup) :
    (create_cmc_coins_sorted_by_price_change_truncated table w cap filt).Nodup ∧
    ∀ idn ∈ create_cmc_coins_sorted_by_price_change_truncated table w cap filt,
      idn ∈ table.map Summary.id := by
  constructor
  · apply (List.take_sublist _ _).nodup
    have hperm : ((sortDesc (rankPairs table w filt)).map Prod.fst).Perm
        ((rankPairs table w filt).map Prod.fst) :=
      (sortDesc_perm _).map Prod.fst
    apply hperm.nodup_iff.mpr
    exact (rankPairs_fst_sublist table w filt).nodup (hnd.erase "bitcoin")
  · intro idn hmem
    have h1 : idn ∈ (sortDesc (rankPairs table w filt)).map Prod.fst :=
      (List.take_sublist _ _).subset hmem
    obtain ⟨p, hp, hp1⟩ := List.mem_map.mp h1
    have hp' : p ∈ rankPairs table w filt := (sortDesc_perm _).mem_iff.mp hp
    have hmem' := (rankPairs_mem_elim table w filt p hp').1
    rw [hp1] at hmem'
    exact List.erase_subset _ _ hmem'

/-- Witness for C10 at a concrete table with a truncating cap of 2. -/
theorem ranking_ids_distinct_and_present_witness :
    (create_cmc_coins_sorted_by_price_change_truncated [sBtcEx, sLowEx, sHighEx]
      Window.hour 2 ["GGG", "DDD"]).Nodup ∧
    ∀ idn ∈ create_cmc_coins_sorted_by_price_change_truncated
      [sBtcEx, sLowEx, sHighEx] Window.hour 2 ["GGG", "DDD"],
      idn ∈ [sBtcEx, sLowEx, sHighEx].map Summary.id :=
  ranking_ids_distinct_and_present [sBtcEx, sLowEx, sHighEx] Window.hour 2
    ["GGG", "DDD"] (by decide)

/-! ### C9: the report renderer -/

theorem findIdx?_digits_dot (fp : List Char) :
    ∀ (ip : List Char) (i : ℕ), (∀ c ∈ ip, isDigitC c = true) →
    List.findIdx? (fun c => c = '.') (ip ++ '.' :: fp) i = some (i + ip.length) := by
  intro ip
  induction ip with
  | nil =>
    intro i hip
    rw [List.nil_append, List.findIdx?_cons]
    simp
  | cons c cs ih =>
    intro i hip
    have hc : c ≠ '.' := by
      intro he
      have := hip c (by simp)
      rw [he] at this
      exact absurd this (by decide)
    rw [List.cons_append, List.findIdx?_cons]
    simp only [hc, decide_eq_true_eq, if_neg hc]
    rw [ih (i + 1) (fun x hx => hip x (by simp [hx]))]
    have hgoal : i + 1 + cs.length = i + (c :: cs).length := by
      simp only [List.length_cons]
      omega
    rw [hgoal]
    simp

theorem findDot_split (ip fp : List Char) (hip : ∀ c ∈ ip, isDigitC c = true) :
    findDot (ip ++ '.' :: fp) = some ip.length := by
  unfold findDot
  rw [findIdx?_digits_dot fp ip 0 hip, Nat.zero_add]

theorem parseNat_aux_lt (s : List Char) :
    ∀ a : ℕ, (∀ c ∈ s, isDigitC c = true) →
    s.foldl (fun a c => a * 10 + (c.toNat - 48)) a < (a + 1) * 10 ^ s.length := by
  induction s with
  | nil =>
    intro a _
    simp
  | cons c cs ih =>
    intro a h
    have hd : c.toNat - 48 ≤ 9 := by
      have hc := h c (by simp)
      unfold isDigitC at hc
      simp at hc
      omega
    rw [List.foldl_cons]
    have h1 := ih (a * 10 + (c.toNat - 48)) (fun x hx => h x (by simp [hx]))
    have h2 : (a * 10 + (c.toNat - 48) + 1) * 10 ^ cs.length ≤
        ((a + 1) * 10) * 10 ^ cs.length := by
      apply Nat.mul_le_mul_right
      omega
    calc cs.foldl (fun a c => a * 10 + (c.toNat - 48)) (a * 10 + (c.toNat - 48))
        < (a * 10 + (c.toNat - 48) + 1) * 10 ^ cs.length := h1
      _ ≤ ((a + 1) * 10) * 10 ^ cs.length := h2
      _ = (a + 1) * 10 ^ (c :: cs).length := by
          rw [List.length_cons, pow_succ]
          ring

theorem parseNat_lt (s : List Char) (h : ∀ c ∈ s, isDigitC c = true) :
    parseNat s < 10 ^ s.length := by
  simpa [parseNat] using parseNat_aux_lt s 0 h

/-- C9: for every rendered report row, the displayed percent equals
`(ratio - 1) * 100` over the chosen change metric, the name is truncated
to at most 14 characters (`name[0:14]`), and the 24h fiat volume — a
decimal string `ip.fp` — is cut at the dot and parsed, which is exactly
truncation toward zero (the floor, the value being nonnegative), never
rounding. -/
theorem render_row_contract (s : Summary) (w : Window) (ip fp : List Char)
    (hip : ∀ c ∈ ip, isDigitC c = true) (hfp : ∀ c ∈ fp, isDigitC c = true)
    (hvol : s.volumeUsd = ip ++ '.' :: fp) :
    (renderRow s w).percent = (metricOf s w).map (fun r => (r - 1) * 100) ∧
    (renderRow s w).nameTrunc = s.name.take 14 ∧
    (renderRow s w).nameTrunc.length ≤ 14 ∧
    (renderRow s w).volumeInt = parseNat ip ∧
    ((renderRow s w).volumeInt : ℤ) = ⌊volValue ip fp⌋ ∧
    0 ≤ volValue ip fp := by
  have h4 : (renderRow s w).volumeInt = parseNat ip := by
    show truncVolume s.volumeUsd = parseNat ip
    rw [hvol]
    unfold truncVolume
    rw [findDot_split ip fp hip]
    simp only []
    rw [List.take_left]
  have hfr0 : (0 : ℚ) ≤ (parseNat fp : ℚ) / 10 ^ fp.length := by positivity
  have hfrlt : (parseNat fp : ℚ) / 10 ^ fp.length < 1 := by
    rw [div_lt_one (by positivity)]
    exact_mod_cast parseNat_lt fp hfp
  have h5 : ⌊volValue ip fp⌋ = (parseNat ip : ℤ) := by
    unfold volValue
    rw [Int.floor_eq_iff]
    constructor
    · push_cast
      linarith
    · push_cast
      linarith
  refine ⟨rfl, rfl, ?_, h4, ?_, ?_⟩
  · show (s.name.take 14).length ≤ 14
    rw [List.length_take]
    exact min_le_left _ _
  · rw [h4, h5]
  · unfold volValue
    positivity

/-- A summary row with a 16-character name, an available hour metric, and
the decimal volume string `6807.95`. -/
def sVolEx : Summary :=
  ⟨"volcoin",
   ['A', 'B', 'C', 'D', 'E', 'F', 'G', 'H', 'I', 'J', 'K', 'L', 'M', 'N', 'O', 'P'],
   "VVV", 1, 1, ['6', '8', '0', '7', '.', '9', '5'], 1,
   ⟨some 1, some 2, some 1, some 2⟩, nanWindow, nanWindow, nanWindow⟩

/-- Witness for C9 at the concrete row `sVolEx`: volume `6807.95`
truncates to 6807, the 16-character name is cut to 14. -/
theorem render_row_contract_witness :
    (renderRow sVolEx Window.hour).percent =
      (metricOf sVolEx Window.hour).map (fun r => (r - 1) * 100) ∧
    (renderRow sVolEx Window.hour).nameTrunc = sVolEx.name.take 14 ∧
    (renderRow sVolEx Window.hour).nameTrunc.length ≤ 14 ∧
    (renderRow sVolEx Window.hour).volumeInt = parseNat ['6', '8', '0', '7'] ∧
    ((renderRow sVolEx Window.hour).volumeInt : ℤ) =
      ⌊volValue ['6', '8', '0', '7'] ['9', '5']⌋ ∧
    0 ≤ volValue ['6', '8', '0', '7'] ['9', '5'] :=
  render_row_contract sVolEx Window.hour ['6', '8', '0', '7'] ['9', '5']
    (by decide) (by decide) (by decide)
